import Mathlib

/-!
Verification development for the `stroop_color` task of `lesca-tasks`
(`src/lesca_tasks/commands/stroop_color.py`).

The Python module is shallowly embedded below.  Conventions:

* numpy `Generator` objects are modelled by the `RNG` state type.  Each numpy
  draw (`rng.choice`, `rng.integers`, `rng.shuffle`, `rng.random`,
  `rng.exponential`) is modelled as a deterministic function of the generator
  state that returns the drawn value together with the advanced state — this
  preserves exactly the property the source relies on (draws are pure
  functions of generator state); the concrete distributions of numpy's PCG64
  are not modelled, a linear congruential step stands in for them.
* the numpy *global* random state (consulted by `np.random.choice`) is a
  second `RNG` value, threaded explicitly through every function of the module
  that can reach a `np.random.*` call (only `choice`'s balanced overflow
  branch does).
* Python `None` becomes `Option.none`; a Python runtime error (failed
  `assert`, `KeyError`, empty range passed to `rng.integers`) becomes an
  `Option.none` result of the embedded function.
* real-valued durations are modelled over `ℚ`.
-/

namespace StroopColor

/-- Model of a numpy random generator state (`numpy.random.Generator`). -/
structure RNG where
  seed : Nat
deriving DecidableEq

/-- One step of the modelled generator: a linear congruential update.  Stands
in for one base draw of numpy's bit generator. -/
def rngNext (r : RNG) : Nat × RNG :=
  let s := (r.seed * 1103515245 + 12345) % 2147483648
  (s, ⟨s⟩)

/-- A canonical global-state value, used to express that a result does not
depend on the global generator. -/
def G0 : RNG := ⟨0⟩

/-- Model of `numpy.random.default_rng(seed)`. -/
def default_rng (seed : Nat) : RNG := ⟨seed % 2147483648⟩

/-- Draw a natural number `< m` (for `m > 0`) from the generator. -/
def randBelow (m : Nat) (r : RNG) : Nat × RNG :=
  let p := rngNext r
  (p.1 % m, p.2)

/-- Remove and return the element at index `i` (Python-style indexed pick used
to model sampling without replacement). -/
def pickRemove : List α → Nat → Option (α × List α)
  | [], _ => none
  | a :: t, 0 => some (a, t)
  | a :: t, i + 1 => (pickRemove t i).map fun p => (p.1, a :: p.2)

/-- Model of `rng.choice(l, k, replace=False)`: draw `k` distinct positions.
For `k = l.length` this is a uniform permutation, which also models
`rng.shuffle`. -/
def sampleNoReplace : List α → Nat → RNG → List α × RNG
  | _, 0, r => ([], r)
  | l, k + 1, r =>
    let v := randBelow l.length r
    match pickRemove l v.1 with
    | some (x, rest) =>
      let s := sampleNoReplace rest k v.2
      (x :: s.1, s.2)
    | none => ([], v.2)

/-- Model of `rng.choice(l, k, replace=True)`: `k` independent indexed draws. -/
def sampleWithReplacement (l : List α) : Nat → RNG → List α × RNG
  | 0, r => ([], r)
  | k + 1, r =>
    match l with
    | [] => ([], r)
    | a :: _ =>
      let v := randBelow l.length r
      let s := sampleWithReplacement l k v.2
      (l.getD v.1 a :: s.1, s.2)

/-- Model of `rng.shuffle(l)` (the source uses the shuffled value). -/
def shuffle (l : List α) (r : RNG) : List α × RNG :=
  sampleNoReplace l l.length r

/-- Model of `rng.integers(low, high)`: uniform in `[low, high)`; numpy raises
on an empty range, modelled as `none`. -/
def npIntegers (low high : Int) (r : RNG) : Option (Int × RNG) :=
  if low < high then
    let v := randBelow (high - low).toNat r
    some (low + (v.1 : Int), v.2)
  else
    none


/-! ### The Balanced Sampler: `choice`

Embedding of `choice(l, nb_repetitions, balanced, rng)`
(`stroop_color.py:252-271`).  The caller-supplied generator is `r`; the numpy
*global* state (consulted by the `np.random.choice` call of the balanced
overflow branch, line 269) is `g`; the result carries the drawn list, the
advanced caller generator, and the advanced global state.  The source's
`rng=None` default (a fresh OS-entropy generator) is not modelled: every
modelled call site passes a generator.  For `l = []` in the balanced overflow
branch the source recurses forever (a `RecursionError`); that unreachable case
is totalised to an empty result. -/
def choiceAux (l : List α) (balanced : Bool) :
    Nat → Nat → RNG → RNG → List α × RNG × RNG
  | fuel, n, r, g =>
    if n < l.length then
      if !balanced then
        let s := sampleWithReplacement l n r
        (s.1, s.2, g)
      else
        let s := sampleNoReplace l n r
        (s.1, s.2, g)
    else
      if !balanced then
        let p := sampleNoReplace l l.length r
        let q := sampleWithReplacement l (n - l.length) p.2
        (p.1 ++ q.1, q.2, g)
      else
        if l.length = 0 then ([], r, g)
        else
          match fuel with
          | 0 => ([], r, g)
          | fuel' + 1 =>
            let p := sampleNoReplace l l.length r
            let q := choiceAux l true fuel' (n - l.length) p.2 g
            let res := sampleNoReplace (p.1 ++ q.1) n q.2.2
            (res.1, q.2.1, res.2)

/-- `choice` instantiates the recursion depth bound with `nb_repetitions`
itself: each recursive call strictly decreases the requested count (by
`l.length ≥ 1`), so the bound is never reached (`choiceAux_irrel` below makes
the bound irrelevant). -/
def choice (l : List α) (nb_repetitions : Nat) (balanced : Bool) (r g : RNG) :
    List α × RNG × RNG :=
  choiceAux l balanced nb_repetitions nb_repetitions r g


/-! ### Data model

`Stim`, `Trial`, `Block`, `Session`, `Color` (`stroop_color.py:163-176`).
`NO_TRIGGER` is Python `None` (`trigger.py:5`), so marker identifiers are
`Option String`.  The opaque expyriment renderables (`xp_stimuli`) are
modelled by their text content (a frame becomes the marker string `"<frame>"`);
only their number and identity matter to the specified properties. -/

/-- Languages accepted by the command line (`-l` flag: `f` French, `e`
English); an unknown code makes `tr` raise before any session starts. -/
inductive Language where
  | f
  | e
deriving DecidableEq

/-- The part of the `exp` configuration dictionary the generation engine
reads.  The remaining entries (screen sizes, text sizes, frame padding, test
flag) only parametrise the opaque renderables. -/
structure Exp where
  language : Language
deriving DecidableEq

structure Stim where
  label : String
  duration_ms : Option ℚ
  char_ID : Option String
  expected_answer : Option String
  responses : Option (List (Nat × String))
  xp_stimuli : List String
deriving DecidableEq, Repr

structure Trial where
  label : String
  char_ID : Option String
  stimuli : List Stim
deriving DecidableEq, Repr

structure Block where
  label : String
  char_ID : Option String
  trials : List Trial
  show_performance : Bool
deriving DecidableEq, Repr

structure Session where
  label : String
  char_ID : Option String
  blocks : List Block
deriving DecidableEq, Repr

/-- RGB triple of a `Color`. -/
abbrev RGB := Nat × Nat × Nat

/-- `TR_FR` (`stroop_color.py:179-192`). -/
def TR_FR : List (String × String) :=
  [("Preparing session...", "Preparation de la session..."),
   ("Press space to start session", "Appuyez sur espace pour demarrer"),
   ("xxxx", "xxxx"),
   ("green", "vert"),
   ("blue", "bleu"),
   ("red", "rouge"),
   ("yellow", "jaune"),
   ("orange", "orange"),
   ("purple", "violet"),
   ("white", "blanc"),
   ("but", "alors"),
   ("when", "quand"),
   ("for", "pour"),
   ("with", "avec")]

/-- `tr(word, language)` (`stroop_color.py:194-201`).  The source raises
`KeyError` for a French word missing from `TR_FR`; the module-level assert
(line 240) guarantees every word reaching `tr` is a key, so the missing-key
case is totalised to the word itself. -/
def tr (word : String) (language : Language) : String :=
  match language with
  | .e => word
  | .f => ((TR_FR.lookup word).getD word)

/-- `ALL_COLORS` (`stroop_color.py:222-228`), in dict insertion order. -/
def ALL_COLORS : List (String × RGB) :=
  [("green", (25, 255, 25)),
   ("blue", (0, 0, 255)),
   ("red", (255, 0, 0)),
   ("yellow", (250, 255, 25)),
   ("orange", (255, 127, 0)),
   ("purple", (225, 0, 255)),
   ("white", (255, 255, 255))]

/-- `COLOR_NAMES` (`stroop_color.py:230`): rgb → name. -/
def COLOR_NAMES (rgb : RGB) : Option String :=
  (ALL_COLORS.map fun p => (p.2, p.1)).lookup rgb

/-- `Strooper.COLORS` (`stroop_color.py:334`): the four scored colors, in the
order of the comprehension list. -/
def COLORS : List (String × RGB) :=
  ["blue", "red", "green", "yellow"].filterMap fun c =>
    (ALL_COLORS.lookup c).map fun v => (c, v)

/-- `Strooper.WORDS` (`stroop_color.py:337`). -/
def WORDS : List String := ["xxxx"]

/-- `Strooper.KEYS` (`stroop_color.py:339-342`), with the SDL key codes of
`expyriment.misc.constants` (`K_w`, `K_q`, `K_e`, `K_r`). -/
def KEYS : List (Nat × String) :=
  [(119, "red"), (113, "green"), (101, "blue"), (114, "yellow")]

/-- `K_SPACE` SDL key code. -/
def K_SPACE : Nat := 32

/-- `K_BACKSPACE` SDL key code: the abort key of `run_session`. -/
def K_BACKSPACE : Nat := 8

/-- Python `str.upper()` over the modelled ASCII vocabulary (a
kernel-computable rendering of `String.toUpper`). -/
def upper (s : String) : String := String.mk (s.data.map Char.toUpper)

/-- `incongruences(colors)` (`stroop_color.py:203-208`): ordered pairs
`(word, ink_name, ink_rgb)` with `word ≠ ink_name`. -/
def incongruences (colors : List (String × RGB)) : List (String × String × RGB) :=
  colors.flatMap fun p =>
    (colors.filter fun q => q.1 ≠ p.1).map fun q => (p.1, q.1, q.2)

/-- `BLOCK_CHAR_ID` (`stroop_color.py:273-285`), task × condition part. -/
def BLOCK_CHAR_ID (task condition : String) : Option String :=
  if task = "naming" then
    if condition = "control" then some "L"
    else if condition = "congruent" then some "E"
    else if condition = "incongruent" then some "G"
    else none
  else if task = "reading" then
    if condition = "control" then some "M"
    else if condition = "congruent" then some "F"
    else if condition = "incongruent" then some "H"
    else none
  else none

/-- `BLOCK_CHAR_ID['switching']` (`stroop_color.py:284`). -/
def BLOCK_CHAR_ID_switching : String := "W"

/-- `STIM_CHAR_ID` (`stroop_color.py:287-298`). -/
def STIM_CHAR_ID (task stim_type : String) : Option String :=
  if task = "naming" then
    if stim_type = "control" then some "X"
    else if stim_type = "congruent" then some "C"
    else if stim_type = "incongruent" then some "I"
    else none
  else if task = "reading" then
    if stim_type = "control" then some "Y"
    else if stim_type = "congruent" then some "T"
    else if stim_type = "incongruent" then some "R"
    else none
  else none

/-- `TRIAL_NX` (`stroop_color.py:300`): naming control symbol. -/
def TRIAL_NX : Nat := 0
/-- `TRIAL_NI` (`stroop_color.py:301`): naming incongruent symbol. -/
def TRIAL_NI : Nat := 1
/-- `TRIAL_RI` (`stroop_color.py:302`): reading incongruent (switching). -/
def TRIAL_RI : Nat := 2

/-- `TRIALS_SPEC` (`stroop_color.py:304-306`). -/
def TRIALS_SPEC : List (String × String) :=
  [("naming", "control"), ("naming", "inhibition"), ("reading", "inhibition")]

/-! Strooper class constants (`stroop_color.py:311-333`). -/

def NB_BLOCKS_NAMING : Nat := 4
def NB_BLOCKS_SWITCHING : Nat := 4
def NB_BLOCKS : Nat := NB_BLOCKS_NAMING + NB_BLOCKS_SWITCHING
def REST_DURATION : ℚ := 35000
def REST_DURATION_JITTER : ℚ := 15000
def NB_TRIALS_PER_BLOCK : Nat := 15
def NB_TRIALS_SWITCH_PER_BLOCK : Nat := 4
def BLOCK_CUE_DURATION : ℚ := 1000
def ER_NB_SWITCHING : Nat := 25
def ER_NB_INHIB : Nat := ER_NB_SWITCHING * 3
def ER_NB_CONTROL : Nat := ER_NB_SWITCHING
def ER_ISI_MIN_MS : ℚ := 400
def ER_ISI_MEAN_MS : ℚ := 4000
def BASELINE_PRE_DURATION : ℚ := 30000
def BASELINE_POST_DURATION : ℚ := 30000
def CUE_DURATION : ℚ := 400
def STIM_DURATION : ℚ := 1800

/-- `rest_stim(duration_ms, exp, symbol)` (`stroop_color.py:232-235`). -/
def rest_stim (duration_ms : ℚ) (_exp : Exp) (symbol : String) : Stim :=
  ⟨"Stim_rest", some duration_ms, none, none, none, [symbol]⟩

/-! ### Trial Catalog Builder (`Strooper.gen_*` methods) -/

/-- `Strooper.gen_cue_stim` (`stroop_color.py:587-590`). -/
def gen_cue_stim (_exp : Exp) : Stim :=
  ⟨"Stim_cue", some CUE_DURATION, none, none, none, [""]⟩

/-- `Strooper.gen_word_stim` (`stroop_color.py:592-612`).  Unframed stimuli
are color-naming ones (expected answer = ink color name); framed stimuli are
word-reading ones (expected answer = the word itself).  `COLOR_NAMES[color]`
would raise `KeyError` off the catalog; totalised with `""`. -/
def gen_word_stim (exp : Exp) (word : String) (color : RGB)
    (stim_type : String) (framed : Bool) : Stim :=
  let xp_stims := [upper (tr word exp.language)] ++
    (if framed then ["<frame>"] else [])
  let expected_answer := if !framed then (COLOR_NAMES color).getD "" else word
  let task := if !framed then "naming" else "reading"
  ⟨"Stim_" ++ task ++ "_" ++ stim_type, some STIM_DURATION,
   STIM_CHAR_ID task stim_type, some expected_answer, some KEYS, xp_stims⟩

/-- `Strooper.gen_naming_trials` (`stroop_color.py:614-627`); `none`
arguments select the class defaults as in the source. -/
def gen_naming_trials (exp : Exp) (words : Option (List String))
    (colors : Option (List (String × RGB))) (prepend_cue : Bool) : List Trial :=
  let colors := colors.getD COLORS
  let words := words.getD WORDS
  words.flatMap fun word =>
    colors.map fun c =>
      let stims := (if prepend_cue then [gen_cue_stim exp] else []) ++
        [gen_word_stim exp word c.2 "control" false]
      Trial.mk ("Trial_" ++ word ++ "_C" ++ c.1) none stims

/-- `Strooper.gen_inhib_trials` (`stroop_color.py:659-670`). -/
def gen_inhib_trials (exp : Exp) (colors : Option (List (String × RGB)))
    (framed : Bool) (prepend_cue : Bool) : List Trial :=
  let colors := colors.getD COLORS
  (incongruences colors).map fun t =>
    let stims := (if prepend_cue then [gen_cue_stim exp] else []) ++
      [gen_word_stim exp t.1 t.2.2 "incongruent" framed]
    Trial.mk ("Trial_" ++ upper t.1 ++ "_" ++ t.2.1) none stims

/-- `Strooper.gen_switch_trials` (`stroop_color.py:696-705`): framed
incongruent trials (read-the-word instruction). -/
def gen_switch_trials (exp : Exp) (prepend_cue : Bool) : List Trial :=
  (incongruences COLORS).map fun t =>
    let stims := (if prepend_cue then [gen_cue_stim exp] else []) ++
      [gen_word_stim exp t.1 t.2.2 "incongruent" true]
    Trial.mk ("Trial_" ++ upper t.1 ++ "_" ++ t.2.1 ++ "_sw") none stims

/-- `Strooper.prepend_block_cue` (`stroop_color.py:635-638`). -/
def prepend_block_cue (exp : Exp) (block_trials : List Trial) : List Trial :=
  Trial.mk "Trial_block_cue" none [rest_stim BLOCK_CUE_DURATION exp "#"] ::
    block_trials

/-! ### Block composers -/

/-- `Strooper.gen_naming_block` (`stroop_color.py:640-647`). -/
def gen_naming_block (exp : Exp) (show_performance : Bool) (r g : RNG) :
    Block × RNG × RNG :=
  let c := choice (gen_naming_trials exp none none true) NB_TRIALS_PER_BLOCK
    false r g
  (Block.mk "Block_Naming" (BLOCK_CHAR_ID "naming" "control")
    (prepend_block_cue exp c.1) show_performance, c.2.1, c.2.2)

/-- `Strooper.gen_inhibit_color_block` (`stroop_color.py:672-679`): note the
`framed=True` argument, so these trials carry reading-task stimuli. -/
def gen_inhibit_color_block (exp : Exp) (show_performance : Bool) (r g : RNG) :
    Block × RNG × RNG :=
  let c := choice (gen_inhib_trials exp none true true) NB_TRIALS_PER_BLOCK
    false r g
  (Block.mk "Block_Naming_Incongruent" (BLOCK_CHAR_ID "naming" "incongruent")
    (prepend_block_cue exp c.1) show_performance, c.2.1, c.2.2)

/-- `Strooper.gen_inhib_sub_block_sizes` inner loop
(`stroop_color.py:713-719`): `k` further uniform draws plus the final
remainder sub-block; `s` is the running sum of drawn sizes. -/
def gen_sub_sizes_aux (total : Int) : Nat → Int → RNG → Option (List Int × RNG)
  | 0, s, r => some ([total - s], r)
  | k + 1, s, r =>
    let adjusted_max := total - (k + 2 : Int) * 1 - s
    match npIntegers 1 (min 4 adjusted_max + 1) r with
    | none => none
    | some (d, r') =>
      match gen_sub_sizes_aux total k (s + d) r' with
      | none => none
      | some (rest, r'') => some (d :: rest, r'')

/-- `Strooper.gen_inhib_sub_block_sizes` (`stroop_color.py:707-724`): the
final `assert(sum == total)` becomes the guard returning `none`. -/
def gen_inhib_sub_block_sizes (_exp : Exp) (r : RNG) : Option (List Int × RNG) :=
  let total : Int := (NB_TRIALS_PER_BLOCK : Int) - (NB_TRIALS_SWITCH_PER_BLOCK : Int)
  match gen_sub_sizes_aux total NB_TRIALS_SWITCH_PER_BLOCK 0 r with
  | none => none
  | some (sizes, r') =>
    let sh := shuffle sizes r'
    if sh.1.sum = total then some (sh.1, sh.2) else none

/-- Layout loop of `Strooper.gen_switching_block` (`stroop_color.py:732-735`):
for each (sub-block size, switch trial) pair, a `choice`-drawn inhibition
sub-block followed by the switch trial. -/
def switch_layout (inhib_trials_ref : List Trial) :
    List (Int × Trial) → RNG → RNG → List Trial × RNG × RNG
  | [], r, g => ([], r, g)
  | p :: rest, r, g =>
    let c := choice inhib_trials_ref p.1.toNat false r g
    let tail := switch_layout inhib_trials_ref rest c.2.1 c.2.2
    (c.1 ++ p.2 :: tail.1, tail.2.1, tail.2.2)

/-- `Strooper.gen_switching_block` (`stroop_color.py:725-739`). -/
def gen_switching_block (exp : Exp) (show_performance : Bool) (r g : RNG) :
    Option (Block × RNG × RNG) :=
  let sw := choice (gen_switch_trials exp true) NB_TRIALS_SWITCH_PER_BLOCK
    false r g
  let inhib_trials_ref := gen_inhib_trials exp none false true
  let cue := Trial.mk "Trial_block_cue" none
    [rest_stim BLOCK_CUE_DURATION exp "#"]
  match gen_inhib_sub_block_sizes exp sw.2.1 with
  | none => none
  | some (sizes, r2) =>
    let laid := switch_layout inhib_trials_ref (sizes.zip sw.1) r2 sw.2.2
    let last := choice inhib_trials_ref (sizes.getLastD 0).toNat false
      laid.2.1 laid.2.2
    some (Block.mk "Block_Switching_Incongruent" (some BLOCK_CHAR_ID_switching)
      (cue :: (laid.1 ++ last.1)) show_performance, last.2.1, last.2.2)

/-! ### Event-related sequence -/

/-- The `enumerate` loop of `gen_random_stroop_seq`
(`stroop_color.py:1427-1430`): walk the shuffled control/inhibition sequence
(index `i`), appending a `TRIAL_RI` right after every position in `chosen`. -/
def insert_switches (stim_seq : List Nat) (i : Nat) (chosen : List Nat) :
    List Nat :=
  match stim_seq with
  | [] => []
  | t :: rest =>
    (if i ∈ chosen then [t, TRIAL_RI] else [t]) ++
      insert_switches rest (i + 1) chosen

/-- `gen_random_stroop_seq` (`stroop_color.py:1411-1431`).  The leading
`assert(nb_switching < nb_naming_inhib)` becomes the guard; the chosen
naming-inhibition positions are looked up through `np.where(seq==TRIAL_NI)`
(`niPos`), indexed by a without-replacement draw over
`range(nb_naming_inhib)`.  The source would raise `IndexError` on an
out-of-range index; `filterMap` drops it (the indices are provably in range
under the guard). -/
def gen_random_stroop_seq (nb_naming_control nb_naming_inhib nb_switching : Nat)
    (r : RNG) : Option (List Nat × RNG) :=
  if nb_switching < nb_naming_inhib then
    let base := List.replicate nb_naming_control TRIAL_NX ++
      List.replicate nb_naming_inhib TRIAL_NI
    let s1 := shuffle base r
    let s2 := sampleNoReplace (List.range nb_naming_inhib) nb_switching s1.2
    let niPos := (List.range s1.1.length).filter fun i =>
      s1.1[i]? = some TRIAL_NI
    let chosen := s2.1.filterMap fun k => niPos[k]?
    some (insert_switches s1.1 0 chosen, s2.2)
  else
    none

/-- First stimulus' expected answer: `trial.stimuli[0].expected_answer` as
read by `generate_stroop_session` (`stroop_color.py:925-947`); an empty
stimulus list (an `IndexError` in the source, never reached) gives `none`. -/
def first_stim_expected (t : Trial) : Option String :=
  match t.stimuli with
  | [] => none
  | s :: _ => s.expected_answer

/-- The `next_trials` dictionary of `generate_stroop_session`
(`stroop_color.py:915-934`): per (task, stimulus type), the unfiltered catalog
under key `None` and, for each of the four scored color names, the catalog
restricted to trials whose first stimulus' expected answer differs from that
name.  Any other key is a `KeyError`, i.e. `none`. -/
def next_trials (exp : Exp) (task stim_type : String) (prev : Option String) :
    Option (List Trial) :=
  let filt := fun (l : List Trial) (c : String) =>
    l.filter fun t => first_stim_expected t ≠ some c
  let keyed := fun (l : List Trial) =>
    match prev with
    | none => some l
    | some c => if (COLORS.lookup c).isSome then some (filt l c) else none
  if task = "naming" ∧ stim_type = "control" then
    keyed (gen_naming_trials exp none none false)
  else if task = "naming" ∧ stim_type = "inhibition" then
    keyed (gen_inhib_trials exp none false false)
  else if task = "reading" ∧ stim_type = "inhibition" then
    keyed (gen_switch_trials exp false)
  else none

/-- The trial-selection loop of `generate_stroop_session`
(`stroop_color.py:940-948`): for each (symbol, ISI) pair, draw one trial from
the filtered catalog with `choice(...)[0]`, append it followed by a rest trial
of the given ISI, and remember its expected answer as the new filter key. -/
def stroop_loop (exp : Exp) : List (Nat × ℚ) → Option String → RNG → RNG →
    Option (List Trial × RNG × RNG)
  | [], _, r, g => some ([], r, g)
  | p :: rest, prev, r, g =>
    match TRIALS_SPEC[p.1]? with
    | none => none
    | some ts =>
      match next_trials exp ts.1 ts.2 prev with
      | none => none
      | some cands =>
        let ch := choice cands 1 false r g
        match ch.1[0]? with
        | none => none
        | some t =>
          match stroop_loop exp rest (first_stim_expected t) ch.2.1 ch.2.2 with
          | none => none
          | some res =>
            some (t :: Trial.mk "rest" none [rest_stim p.2 exp "+"] :: res.1,
              res.2.1, res.2.2)

/-- `Strooper.generate_stroop_session` (`stroop_color.py:913-963`). -/
def generate_stroop_session (exp : Exp) (stim_seq : List Nat)
    (isis_ms : List ℚ) (r g : RNG) : Option (Session × RNG × RNG) :=
  match stroop_loop exp (stim_seq.zip isis_ms) none r g with
  | none => none
  | some res =>
    some (Session.mk "Session_Stroop_ER" (some "S")
      [Block.mk "rest" none
        [Trial.mk "rest" none [rest_stim BASELINE_PRE_DURATION exp "+"]] false,
       Block.mk "Block_Stroop_ER" none res.1 false,
       Block.mk "rest" none
        [Trial.mk "rest" none [rest_stim BASELINE_POST_DURATION exp "+"]] false],
      res.2.1, res.2.2)

/-- The ISI draws of `gen_main_session_event_related`
(`stroop_color.py:902-903`): `rng.exponential(mean-min, nb) + min`, one
sequential draw per trial.  The exponential deviate is modelled as a
nonnegative ms-granularity draw added to the minimum ISI. -/
def draw_isis : Nat → RNG → List ℚ × RNG
  | 0, r => ([], r)
  | k + 1, r =>
    let v := rngNext r
    let rest := draw_isis k v.2
    ((((v.1 % 7200 : Nat) : ℚ) + ER_ISI_MIN_MS) :: rest.1, rest.2)

/-- `Strooper.gen_main_session_event_related` (`stroop_color.py:890-909`). -/
def gen_main_session_event_related (exp : Exp) (_session_label : String)
    (r g : RNG) : Option (Session × RNG × RNG) :=
  let nb_trials := ER_NB_SWITCHING + ER_NB_INHIB + ER_NB_CONTROL
  match gen_random_stroop_seq ER_NB_CONTROL ER_NB_INHIB ER_NB_SWITCHING r with
  | none => none
  | some sq =>
    let isis := draw_isis nb_trials sq.2
    generate_stroop_session exp sq.1 isis.1 isis.2 g

/-! ### Fixed-block main session -/

/-- The jitter draws of `gen_main_session_block.rd_gen`
(`stroop_color.py:973-974`): `rng.random(NB_BLOCKS//2) * REST_DURATION_JITTER`
modelled at ms granularity (each draw in `[0, 15000)`). -/
def draw_jitters : Nat → RNG → List ℚ × RNG
  | 0, r => ([], r)
  | k + 1, r =>
    let v := rngNext r
    let rest := draw_jitters k v.2
    (((v.1 % 15000 : Nat) : ℚ) :: rest.1, rest.2)

/-- `rd_gen` of `gen_main_session_block` (`stroop_color.py:966-996`): draws
the self-cancelling jitter vector (half uniform positive, mirrored negative,
odd count padded with one zero), shuffles it, checks the two asserts on the
resulting rest durations (modelled as the `none` outcome), and yields the
rest durations in `pop()` order, i.e. from the end — hence the `reverse`. -/
def gen_rest_durations (r : RNG) : Option (List ℚ) × RNG :=
  let js := draw_jitters (NB_BLOCKS / 2) r
  let jitters := js.1 ++ js.1.map fun x => -x
  let jitters := if NB_BLOCKS % 2 ≠ 0 then jitters ++ [0] else jitters
  let sh := shuffle jitters js.2
  let all_rests := sh.1.map fun j => REST_DURATION + j
  if !(all_rests.all fun rt =>
      decide (rt ≤ REST_DURATION + REST_DURATION_JITTER) &&
      decide (REST_DURATION - REST_DURATION_JITTER ≤ rt)) then (none, sh.2)
  else (some all_rests.reverse, sh.2)

/-- The A-B-B-A-A-B-A-B macro-block order of `gen_main_session_block`
(`stroop_color.py:1004-1009`): `false` = naming block (A), `true` =
switching block (B), in the order the generators are forced by the
`send(None)` calls. -/
def MAIN_BLOCK_ORDER : List Bool :=
  [false, true, true, false, false, true, false, true]

/-- One stimulus block of the main block session: a switching block for a
`true` kind, a (never-failing) naming block for a `false` kind. -/
def gen_one_stim_block (exp : Exp) (k : Bool) (r g : RNG) :
    Option (Block × RNG × RNG) :=
  if k then gen_switching_block exp false r g
  else some (gen_naming_block exp false r g)

/-- Sequential generation of the stimulus blocks of
`gen_main_session_block`, one per entry of the kind list, threading the
caller generator and the global state in evaluation order. -/
def gen_stim_blocks (exp : Exp) : List Bool → RNG → RNG →
    Option (List Block × RNG × RNG)
  | [], r, g => some ([], r, g)
  | k :: rest, r, g =>
    match gen_one_stim_block exp k r g with
    | none => none
    | some b =>
      match gen_stim_blocks exp rest b.2.1 b.2.2 with
      | none => none
      | some res => some (b.1 :: res.1, res.2.1, res.2.2)

/-- The session-assembly step of `gen_main_session_block`
(`stroop_color.py:997-1019`) once the rest durations are drawn: generate
the stimulus blocks in the interleaved A-B-B-A-A-B-A-B send order
(`MAIN_BLOCK_ORDER`), pair each with its rest block (the slice assignments
interleave stimulus and rest blocks), and prepend the pre-baseline block;
a failed switching-block generation propagates as `none`. -/
def assemble_session (exp : Exp) (rest_durations : List ℚ) (r2 g : RNG) :
    Option (Session × RNG × RNG) :=
  (gen_stim_blocks exp MAIN_BLOCK_ORDER r2 g).map fun sb =>
    let rest_blocks := rest_durations.map fun d =>
      Block.mk "rest" none [Trial.mk "rest" none [rest_stim d exp "+"]] false
    let all_blocks := (sb.1.zip rest_blocks).flatMap fun p => [p.1, p.2]
    let baseline := Block.mk "baseline_pre" none
      [Trial.mk "rest" none [rest_stim BASELINE_PRE_DURATION exp "+"]] false
    (Session.mk "Strooper_main" none (baseline :: all_blocks),
      sb.2.1, sb.2.2)

/-- `Strooper.gen_main_session_block` (`stroop_color.py:965-1019`).  Order of
generator consumption follows the source's lazy evaluation: the jitters are
drawn when the first rest block forces `rd_gen` (line 993, modelled by
`gen_rest_durations`; a failed `rd_gen` assert propagates as `none` through
the `bind`), then the blocks are assembled by `assemble_session`. -/
def gen_main_session_block (exp : Exp) (_session_label : String) (r g : RNG) :
    Option (Session × RNG × RNG) :=
  let rd := gen_rest_durations r
  rd.1.bind fun rest_durations =>
    assemble_session exp rest_durations rd.2 g

/-- The seed digest of `gen_main_session` (`stroop_color.py:880-881`):
`int(sha256(label), 16) % 10**8` modelled by a deterministic string hash
reduced modulo `10^8`. -/
def seedOf (session_label : String) : Nat :=
  (session_label.toList.foldl
    (fun h c => (h * 31 + c.toNat) % 2147483648) 7) % 100000000

/-- `Strooper.gen_main_session` (`stroop_color.py:878-887`): derives a fresh
seeded generator from the session label (discarding the `rng` argument, as the
source does) and dispatches on the session type.  Result: the generated
session (or `none` on an internal error) and the final global state. -/
def gen_main_session (exp : Exp) (session_type session_label : String)
    (_rngArg : Option RNG) (g : RNG) : Option (Session × RNG) :=
  let rng := default_rng (seedOf session_label)
  let res :=
    if session_type = "block" then
      gen_main_session_block exp session_label rng g
    else
      gen_main_session_event_related exp session_label rng g
  res.map fun t => (t.1, t.2.2)

/-! ### Session Runner (`run_session`, `stroop_color.py:1062-1209`)

The runner is embedded as a pure function of the session tree and the
participant's inputs: one `Option Nat` (pressed key code or timeout) is
consumed per stimulus, exactly as each stimulus performs one
`exp.keyboard.wait` call.  Timestamps, the data log, marker transport and
screen presentation are external sinks and are not part of the returned
value; the per-block displayed performance percentages
(`performance * 100 / nb_expected_answers`, line 1182) are collected so the
displayed block performance is observable. -/

/-- Outcome of running a sub-tree: normal completion or the participant abort
(backspace during a passive stimulus, `stroop_color.py:1139-1145`, which in
the source is an early `return` — i.e. a `None` performance). -/
inductive StepRes (α : Type) where
  | ok (a : α)
  | aborted
deriving DecidableEq, Repr

/-- Stimulus loop of `run_session` (`stroop_color.py:1110-1175`): threads the
block accumulator `performance` (a raw count of correct answers) and
`nb_expected_answers`. -/
def run_stims : List Stim → Option ℚ → Nat → List (Option Nat) →
    StepRes (Option ℚ × Nat × List (Option Nat))
  | [], performance, nb, env => .ok (performance, nb, env)
  | stim :: rest, performance, nb, env =>
    let input := env.headD none
    let env' := env.tail
    match stim.responses with
    | none =>
      if input = some K_BACKSPACE then .aborted
      else run_stims rest performance nb env'
    | some responses =>
      let answer :=
        match input with
        | some btn => (responses.lookup btn).getD "NA"
        | none => "NA"
      match stim.expected_answer with
      | some expected =>
        if expected ≠ "DUMMY" then
          let score : ℚ := if answer = expected then 1 else 0
          run_stims rest (some (performance.getD 0 + score)) (nb + 1) env'
        else run_stims rest performance nb env'
      | none => run_stims rest performance nb env'

/-- Trial loop of a block. -/
def run_trials : List Trial → Option ℚ → Nat → List (Option Nat) →
    StepRes (Option ℚ × Nat × List (Option Nat))
  | [], performance, nb, env => .ok (performance, nb, env)
  | t :: rest, performance, nb, env =>
    match run_stims t.stimuli performance nb env with
    | .aborted => .aborted
    | .ok res => run_trials rest res.1 res.2.1 res.2.2

/-- Block loop of `run_session` (`stroop_color.py:1104-1195`): accumulates
the session performance as `performance / len(session.blocks)` per scoring
block (note: the raw correct count, not the block accuracy, is divided by the
total number of blocks) and records each displayed percentage. -/
def run_blocks (nb_blocks : ℚ) : List Block → Option ℚ → List ℚ →
    List (Option Nat) → StepRes (Option ℚ × List ℚ × List (Option Nat))
  | [], session_performance, shown, env => .ok (session_performance, shown, env)
  | b :: rest, session_performance, shown, env =>
    match run_trials b.trials none 0 env with
    | .aborted => .aborted
    | .ok res =>
      let performance := res.1
      let nb_expected_answers := res.2.1
      let shown' :=
        if b.show_performance && performance.isSome then
          shown ++ [performance.getD 0 * 100 / (nb_expected_answers : ℚ)]
        else shown
      let sp' :=
        if performance.isSome then
          some (session_performance.getD 0 + performance.getD 0 / nb_blocks)
        else session_performance
      run_blocks nb_blocks rest sp' shown' res.2.2

/-- `run_session` with the displayed block percentages kept observable:
returns `(session_performance, displayed percentages)`.  An abort returns a
`None` performance (the source's bare `return`). -/
def run_session_stats (session : Session) (env : List (Option Nat)) :
    Option ℚ × List ℚ :=
  match run_blocks (session.blocks.length : ℚ) session.blocks none [] env with
  | .aborted => (none, [])
  | .ok res => (res.1, res.2.1)

/-- `run_session` (`stroop_color.py:1062-1209`): the returned session-level
performance. -/
def run_session (session : Session) (env : List (Option Nat)) : Option ℚ :=
  (run_session_stats session env).1

/-! ### Repetition Controller (`run_sessions`, `stroop_color.py:1022-1060`) -/

/-- `performances[key].append(v)` on the `defaultdict(list)`. -/
def dict_append (m : List (String × List (Option ℚ))) (key : String)
    (v : Option ℚ) : List (String × List (Option ℚ)) :=
  match m with
  | [] => [(key, [v])]
  | p :: rest =>
    if p.1 = key then (p.1, p.2 ++ [v]) :: rest
    else p :: dict_append rest key v

/-- The `while` loop of `run_sessions` (`stroop_color.py:1044-1058`), with
`fuel = repeat_max - i_repetition` (the loop body unconditionally increments
`i_repetition`, so it runs at most `repeat_max` times).  Each attempt consumes
one input list from `envs`.  `run_session` never raises
`AbortBlockException` (its abort path is a plain `return`), so the
`except` clause of the source is dead code and every attempt appends its
(possibly `None`) performance and increments both counters. -/
def session_loop (session : Session) (perf_min : ℚ) :
    Nat → Option ℚ → List (Option ℚ) → Nat → List (List (Option Nat)) →
    List (Option ℚ) × Nat × List (List (Option Nat))
  | 0, _, acc, idx, envs => (acc, idx, envs)
  | fuel + 1, perf, acc, idx, envs =>
    let looping :=
      match perf with
      | none => true
      | some p => decide (p < perf_min)
    if looping then
      let p := run_session session (envs.headD [])
      session_loop session perf_min fuel p (acc ++ [p]) (idx + 1) envs.tail
    else (acc, idx, envs)

/-- Session iteration of `run_sessions` (`stroop_color.py:1041-1060`). -/
def run_sessions_go (label_pfx : String) :
    List (Session × ℚ × Nat) → List (String × List (Option ℚ)) → Nat →
    List (List (Option Nat)) → List (String × List (Option ℚ)) × Nat
  | [], performances, idx, _ => (performances, idx)
  | s :: rest, performances, idx, envs =>
    let res := session_loop s.1 s.2.1 s.2.2 none [] idx envs
    let performances' := res.1.foldl
      (fun m v => dict_append m (label_pfx ++ s.1.label) v) performances
    run_sessions_go label_pfx rest performances' res.2.1 res.2.2

/-- `run_sessions(exp_data, sessions, ..., session_prefix, rng)` for a list of
`(session, perf_min, repeat_max)` triples: returns the performance dict and
the final `exp_data['SESSION_IDX']`. -/
def run_sessions (session_idx : Nat) (sessions : List (Session × ℚ × Nat))
    (label_pfx : String) (envs : List (List (Option Nat))) :
    List (String × List (Option ℚ)) × Nat :=
  run_sessions_go label_pfx sessions [] session_idx envs

/-! ### Claim-support definitions -/

/-- The configuration with English instruction language. -/
def expE : Exp := ⟨Language.e⟩

/-- First stimulus of a trial that expects a keyed response (the trial's
scorable stimulus, cf. spec §3). -/
def first_scorable_expected (t : Trial) : Option String :=
  (t.stimuli.find? fun s => s.responses.isSome).bind fun s => s.expected_answer

/-- Trials whose first stimulus carries an expected answer (the scored trials
of a block, as opposed to the interleaved rest trials). -/
def scoredTrials (ts : List Trial) : List Trial :=
  ts.filter fun t => (first_stim_expected t).isSome

/-- Two trials answer-differ on their first stimulus. -/
def diffExpected (a b : Trial) : Prop :=
  first_stim_expected a ≠ first_stim_expected b

/-- No two consecutive trials of the list share a first-stimulus expected
answer. -/
def NoRepeatChain (l : List Trial) : Prop := List.Chain' diffExpected l

/-- Strengthened loop invariant for the event-related selection: every trial
is scored, differs from the running previous answer, and the chain continues
from its own answer. -/
def noRepeatFrom : Option String → List Trial → Prop
  | _, [] => True
  | prev, t :: rest =>
    (first_stim_expected t).isSome = true ∧
    (∀ c, prev = some c → first_stim_expected t ≠ some c) ∧
    noRepeatFrom (first_stim_expected t) rest

/-- The main (event-related) block's trials of a generated session. -/
def mainBlockTrials (o : Option (Session × RNG × RNG)) : List Trial :=
  match o with
  | some t => (t.1.blocks.getD 1 (Block.mk "" none [] false)).trials
  | none => []

/-- Every switching symbol is immediately preceded by a naming-inhibition
symbol (and in particular never opens the sequence). -/
def SwitchAfterInhib (l : List Nat) : Prop :=
  ∀ i : Nat, l[i]? = some TRIAL_RI → 0 < i ∧ l[i - 1]? = some TRIAL_NI

/-- The symbol sequence of a `gen_random_stroop_seq` result. -/
def seqOf (o : Option (List Nat × RNG)) : List Nat :=
  (o.map Prod.fst).getD []

/-- The coverage guarantee of `choice`: result of the requested length
containing every candidate. -/
def choiceCovers (l : List α) (n : Nat) (balanced : Bool) (r g : RNG) : Prop :=
  (choice l n balanced r g).1.length = n ∧
    ∀ x ∈ l, x ∈ (choice l n balanced r g).1

/-- Overflow shape of the unbalanced branch: the full-coverage permutation is
exactly the front of the result and the global state is untouched. -/
def unbalancedCoverageFront (l : List α) (n : Nat) (r g : RNG) : Prop :=
  ((choice l n false r g).1.take l.length).Perm l ∧
    (choice l n false r g).2.2 = g

/-- Overflow shape of the balanced branch: the result is a permutation (the
final full-length sample without replacement, drawn from the global state) of
the concatenated coverage-permutation-plus-recursive-draws pool. -/
def balancedReshuffled (l : List α) (n : Nat) (r g : RNG) : Prop :=
  (choice l n true r g).1.Perm
    ((sampleNoReplace l l.length r).1 ++
      (choice l (n - l.length) true (sampleNoReplace l l.length r).2 g).1)

/-- The four scored-trial catalogs of the event-related selection carry
expected answers among the four scored color names. -/
def colors4names : List String := ["blue", "red", "green", "yellow"]

/-- Concrete single-block session for the accuracy-computation scenario: four
scored inhibition trials (no cue), performance shown after the block. -/
def c2_session : Session :=
  Session.mk "Session_C2" none
    [Block.mk "Block_C2" (BLOCK_CHAR_ID "naming" "incongruent")
      ((gen_inhib_trials expE none false false).take 4) true]

/-- Key presses for the accuracy scenario: correct, incorrect, correct,
correct (the four trials expect red, green, yellow, blue). -/
def c2_env : List (Option Nat) :=
  [some 119, some 119, some 114, some 101]

/-- A session whose first stimulus is a passive wait followed by a scorable
stimulus: pressing backspace during the first stimulus aborts it. -/
def c10_session : Session :=
  Session.mk "Session_abort" none
    [Block.mk "Block_abort" none
      [Trial.mk "Trial_abort" none
        [rest_stim 1000 expE "+",
         gen_word_stim expE "blue" (255, 0, 0) "incongruent" false]]
      false]

/-- Input lists for two attempts at `c10_session`: the first presses backspace
during the passive stimulus (abort), the second lets it time out and answers
the scorable stimulus correctly. -/
def c10_envs : List (List (Option Nat)) :=
  [[some K_BACKSPACE], [none, some 119]]
/-! ### Lemmas about the sampling primitives -/

theorem pickRemove_isSome {l : List α} {i : Nat} (h : i < l.length) :
    (pickRemove l i).isSome := by
  induction l generalizing i with
  | nil => simp at h
  | cons a t ih =>
    cases i with
    | zero => simp [pickRemove]
    | succ j =>
      have hj : j < t.length := by simpa using Nat.lt_of_succ_lt_succ h
      obtain ⟨p, hp⟩ := Option.isSome_iff_exists.mp (ih hj)
      simp [pickRemove, hp]

theorem pickRemove_perm {l : List α} {i : Nat} {x : α} {rest : List α}
    (h : pickRemove l i = some (x, rest)) : l.Perm (x :: rest) := by
  induction l generalizing i x rest with
  | nil => simp [pickRemove] at h
  | cons a t ih =>
    cases i with
    | zero =>
      simp only [pickRemove, Option.some.injEq, Prod.mk.injEq] at h
      rw [h.1, h.2]
    | succ j =>
      simp only [pickRemove, Option.map_eq_some'] at h
      obtain ⟨⟨y, restT⟩, hy, heq⟩ := h
      cases heq
      exact List.Perm.trans ((ih hy).cons a) (List.Perm.swap y a restT)

theorem sampleNoReplace_perm {l : List α} {r : RNG} :
    (sampleNoReplace l l.length r).1.Perm l := by
  suffices h : ∀ (k : Nat) (l : List α) (r : RNG), k = l.length →
      (sampleNoReplace l k r).1.Perm l by
    exact h l.length l r rfl
  intro k
  induction k with
  | zero =>
    intro l r hk
    cases l with
    | nil => simp [sampleNoReplace]
    | cons a t => simp at hk
  | succ k ih =>
    intro l r hk
    have hlen : 0 < l.length := by omega
    have hidx : (randBelow l.length r).1 < l.length :=
      Nat.mod_lt _ hlen
    have hsome := pickRemove_isSome (l := l) hidx
    rw [sampleNoReplace]
    obtain ⟨⟨x, rest⟩, hx⟩ := Option.isSome_iff_exists.mp hsome
    rw [hx]
    have hperm : l.Perm (x :: rest) := pickRemove_perm hx
    have hrest : k = rest.length := by
      have := hperm.length_eq
      simp at this
      omega
    exact List.Perm.trans ((ih rest _ hrest).cons x) hperm.symm

theorem sampleNoReplace_length {l : List α} {k : Nat} {r : RNG}
    (h : k ≤ l.length) : (sampleNoReplace l k r).1.length = k := by
  induction k generalizing l r with
  | zero => simp [sampleNoReplace]
  | succ k ih =>
    have hlen : 0 < l.length := by omega
    have hidx : (randBelow l.length r).1 < l.length := Nat.mod_lt _ hlen
    obtain ⟨⟨x, rest⟩, hx⟩ :=
      Option.isSome_iff_exists.mp (pickRemove_isSome (l := l) hidx)
    rw [sampleNoReplace, hx]
    have hrest : l.length = rest.length + 1 := by
      simpa using (pickRemove_perm hx).length_eq
    simp [ih (l := rest) (by omega)]

theorem sampleNoReplace_mem {l : List α} {k : Nat} {r : RNG} {x : α}
    (h : x ∈ (sampleNoReplace l k r).1) : x ∈ l := by
  induction k generalizing l r with
  | zero => simp [sampleNoReplace] at h
  | succ k ih =>
    rw [sampleNoReplace] at h
    rcases hp : pickRemove l (randBelow l.length r).1 with _ | ⟨y, rest⟩
    · rw [hp] at h; simp at h
    · rw [hp] at h
      simp only [List.mem_cons] at h
      have hperm := pickRemove_perm hp
      rcases h with h | h
      · exact hperm.symm.subset (by simp [h])
      · exact hperm.symm.subset (List.mem_cons_of_mem _ (ih h))

theorem sampleWithReplacement_length {l : List α} {k : Nat} {r : RNG}
    (h : l ≠ []) : (sampleWithReplacement l k r).1.length = k := by
  induction k generalizing r with
  | zero => simp [sampleWithReplacement]
  | succ k ih =>
    cases l with
    | nil => exact absurd rfl h
    | cons a t => simp [sampleWithReplacement, ih]

theorem sampleWithReplacement_mem {l : List α} {k : Nat} {r : RNG} {x : α}
    (h : x ∈ (sampleWithReplacement l k r).1) : x ∈ l := by
  induction k generalizing r with
  | zero => simp [sampleWithReplacement] at h
  | succ k ih =>
    cases l with
    | nil => simp [sampleWithReplacement] at h
    | cons a t =>
      rw [sampleWithReplacement] at h
      simp only [List.mem_cons] at h
      rcases h with h | h
      · rw [h]
        by_cases hi : (randBelow (a :: t).length r).1 < (a :: t).length
        · rw [List.getD_eq_getElem _ _ hi]
          exact List.getElem_mem hi
        · rw [List.getD_eq_default _ _ (by omega)]
          exact List.mem_cons_self a t
      · exact ih h

theorem shuffle_perm {l : List α} {r : RNG} : (shuffle l r).1.Perm l :=
  sampleNoReplace_perm


/-! ### Branch equations for `choice` -/

theorem choiceAux_irrel (l : List α) (b : Bool) :
    ∀ (n f1 f2 : Nat) (r g : RNG), n ≤ f1 → n ≤ f2 →
      choiceAux l b f1 n r g = choiceAux l b f2 n r g := by
  intro n
  induction n using Nat.strong_induction_on with
  | _ n ih =>
    intro f1 f2 r g h1 h2
    rw [choiceAux.eq_def, choiceAux.eq_def]
    by_cases hn : n < l.length
    · simp [hn]
    · by_cases hz : l.length = 0
      · simp [hn, hz]
      · have hlen : 0 < l.length := Nat.pos_of_ne_zero hz
        have hn' : l.length ≤ n := Nat.not_lt.mp hn
        simp only [hn, if_false, hz]
        cases b with
        | false => rfl
        | true =>
          cases f1 with
          | zero => omega
          | succ f1' =>
            cases f2 with
            | zero => omega
            | succ f2' =>
              simp only
              rw [ih (n - l.length) (by omega) f1' f2' _ _ (by omega) (by omega)]

theorem choice_base_false {l : List α} {n : Nat} (r g : RNG)
    (h : n < l.length) :
    choice l n false r g =
      ((sampleWithReplacement l n r).1, (sampleWithReplacement l n r).2, g) := by
  rw [choice, choiceAux.eq_def]
  simp [h]

theorem choice_base_true {l : List α} {n : Nat} (r g : RNG)
    (h : n < l.length) :
    choice l n true r g =
      ((sampleNoReplace l n r).1, (sampleNoReplace l n r).2, g) := by
  rw [choice, choiceAux.eq_def]
  simp [h]

theorem choice_false_overflow {l : List α} {n : Nat} (r g : RNG)
    (h : l.length ≤ n) :
    choice l n false r g =
      ((sampleNoReplace l l.length r).1 ++
        (sampleWithReplacement l (n - l.length)
          (sampleNoReplace l l.length r).2).1,
       (sampleWithReplacement l (n - l.length)
         (sampleNoReplace l l.length r).2).2, g) := by
  rw [choice, choiceAux.eq_def]
  simp [Nat.not_lt.mpr h]

theorem choice_true_overflow {l : List α} {n : Nat} (r g : RNG)
    (hl : l ≠ []) (h : l.length ≤ n) :
    choice l n true r g =
      ((sampleNoReplace
          ((sampleNoReplace l l.length r).1 ++
            (choice l (n - l.length) true (sampleNoReplace l l.length r).2 g).1)
          n
          (choice l (n - l.length) true (sampleNoReplace l l.length r).2 g).2.2).1,
       (choice l (n - l.length) true (sampleNoReplace l l.length r).2 g).2.1,
       (sampleNoReplace
          ((sampleNoReplace l l.length r).1 ++
            (choice l (n - l.length) true (sampleNoReplace l l.length r).2 g).1)
          n
          (choice l (n - l.length) true (sampleNoReplace l l.length r).2 g).2.2).2) := by
  have hl0 : l.length ≠ 0 := fun hz => hl (List.length_eq_zero.mp hz)
  have hlen : 0 < l.length := Nat.pos_of_ne_zero hl0
  obtain ⟨m, rfl⟩ : ∃ m, n = m + 1 := ⟨n - 1, by omega⟩
  rw [choice, choiceAux.eq_def]
  simp only [Nat.not_lt.mpr h, if_false, hl0, Bool.not_true]
  rw [choiceAux_irrel l true (m + 1 - l.length) m (m + 1 - l.length) _ _
    (by omega) (by omega)]
  rfl

theorem choice_true_length {l : List α} (hl : l ≠ []) :
    ∀ (n : Nat) (r g : RNG), (choice l n true r g).1.length = n := by
  intro n
  induction n using Nat.strong_induction_on with
  | _ n ih =>
    intro r g
    by_cases h : n < l.length
    · rw [choice_base_true _ _ h]
      exact sampleNoReplace_length (le_of_lt h)
    · have h' : l.length ≤ n := Nat.not_lt.mp h
      have hl0 : 0 < l.length := List.length_pos.mpr hl
      rw [choice_true_overflow _ _ hl h']
      have hq := ih (n - l.length) (by omega)
        (sampleNoReplace l l.length r).2 g
      rw [sampleNoReplace_length]
      rw [List.length_append, sampleNoReplace_length le_rfl, hq]
      omega

theorem choice_mem {l : List α} {b : Bool} {x : α} :
    ∀ (n : Nat) (r g : RNG), x ∈ (choice l n b r g).1 → x ∈ l := by
  intro n
  induction n using Nat.strong_induction_on with
  | _ n ih =>
    intro r g hx
    by_cases h : n < l.length
    · cases b with
      | false =>
        rw [choice_base_false _ _ h] at hx
        exact sampleWithReplacement_mem hx
      | true =>
        rw [choice_base_true _ _ h] at hx
        exact sampleNoReplace_mem hx
    · have h' : l.length ≤ n := Nat.not_lt.mp h
      cases b with
      | false =>
        rw [choice_false_overflow _ _ h'] at hx
        rcases List.mem_append.mp hx with hx | hx
        · exact sampleNoReplace_mem hx
        · exact sampleWithReplacement_mem hx
      | true =>
        by_cases hl : l = []
        · subst hl
          rw [choice, choiceAux.eq_def] at hx
          simp at hx
        · have hl0 : 0 < l.length := List.length_pos.mpr hl
          rw [choice_true_overflow _ _ hl h'] at hx
          have hx' := sampleNoReplace_mem hx
          rcases List.mem_append.mp hx' with hx' | hx'
          · exact sampleNoReplace_mem hx'
          · exact ih (n - l.length) (by omega) _ _ hx'

/-! ### Claim C5: full coverage of `choice` in the overflow case -/

/-- **C5**: for every non-empty candidate list `l`, every `n ≥ |l|`, and both
values of the balanced flag, `choice l n balanced rng` returns exactly `n`
items whose multiset contains every element of `l` at least once. -/
theorem c5_choice_full_coverage (l : List α) (n : Nat) (balanced : Bool)
    (r g : RNG) (hl : l ≠ []) (hn : l.length ≤ n) :
    choiceCovers l n balanced r g := by
  have hl0 : 0 < l.length := List.length_pos.mpr hl
  unfold choiceCovers
  cases balanced with
  | false =>
    rw [choice_false_overflow r g hn]
    constructor
    · simp only [List.length_append]
      rw [sampleNoReplace_length le_rfl, sampleWithReplacement_length hl]
      omega
    · intro x hx
      exact List.mem_append_left _ (sampleNoReplace_perm.mem_iff.mpr hx)
  | true =>
    constructor
    · exact choice_true_length hl n r g
    · intro x hx
      rw [choice_true_overflow r g hl hn]
      have hpool : ((sampleNoReplace l l.length r).1 ++
          (choice l (n - l.length) true
            (sampleNoReplace l l.length r).2 g).1).length = n := by
        rw [List.length_append, sampleNoReplace_length le_rfl,
          choice_true_length hl]
        omega
      have hperm := @sampleNoReplace_perm _
        ((sampleNoReplace l l.length r).1 ++
          (choice l (n - l.length) true (sampleNoReplace l l.length r).2 g).1)
        ((choice l (n - l.length) true (sampleNoReplace l l.length r).2 g).2.2)
      rw [hpool] at hperm
      exact hperm.mem_iff.mpr
        (List.mem_append_left _ (sampleNoReplace_perm.mem_iff.mpr hx))

/-- **C5 witness**: concrete instance `l = [1, 2]`, `n = 3`, balanced set. -/
theorem c5_choice_full_coverage_witness :
    (([1, 2] : List Nat) ≠ [] ∧ ([1, 2] : List Nat).length ≤ 3) ∧
      choiceCovers ([1, 2] : List Nat) 3 true ⟨0⟩ ⟨0⟩ :=
  ⟨⟨by decide, by decide⟩,
   c5_choice_full_coverage [1, 2] 3 true ⟨0⟩ ⟨0⟩ (by decide) (by decide)⟩

/-! ### Claim C3: `choice` and the hidden global state -/

/-- **C3 counterexample**: with the balanced flag set and `n = |l| = 4`, two
calls of `choice` with identically seeded caller generators but different
global numpy states return different results — the balanced overflow branch's
final `np.random.choice` (`stroop_color.py:269`) draws from the hidden global
state, so the claim fails as stated. -/
theorem c3_counterexample :
    (choice ([0, 1, 2, 3] : List Nat) 4 true ⟨0⟩ ⟨1⟩).1 ≠
      (choice ([0, 1, 2, 3] : List Nat) 4 true ⟨0⟩ ⟨2⟩).1 := by
  decide

/-- **C3 amended**: `choice` draws all randomness from the caller-supplied
generator — independently of the global state — except in the balanced
overflow branch: whenever `n < |l|` or the balanced flag is unset, the result
and the advanced caller generator are the same for any two global states. -/
theorem c3_choice_rng_only (l : List α) (n : Nat) (balanced : Bool)
    (r g g' : RNG) (h : n < l.length ∨ balanced = false) :
    (choice l n balanced r g).1 = (choice l n balanced r g').1 ∧
      (choice l n balanced r g).2.1 = (choice l n balanced r g').2.1 := by
  rcases h with h | h
  · cases balanced with
    | false =>
      rw [choice_base_false r g h, choice_base_false r g' h]
      exact ⟨rfl, rfl⟩
    | true =>
      rw [choice_base_true r g h, choice_base_true r g' h]
      exact ⟨rfl, rfl⟩
  · subst h
    by_cases hn : n < l.length
    · rw [choice_base_false r g hn, choice_base_false r g' hn]
      exact ⟨rfl, rfl⟩
    · rw [choice_false_overflow r g (Nat.not_lt.mp hn),
        choice_false_overflow r g' (Nat.not_lt.mp hn)]
      exact ⟨rfl, rfl⟩

/-- **C3 amended witness**: concrete unbalanced instance. -/
theorem c3_choice_rng_only_witness :
    ((2 : Nat) < ([5, 6, 7] : List Nat).length ∨ true = false) ∧
      ((choice ([5, 6, 7] : List Nat) 2 true ⟨9⟩ ⟨1⟩).1 =
          (choice ([5, 6, 7] : List Nat) 2 true ⟨9⟩ ⟨2⟩).1 ∧
        (choice ([5, 6, 7] : List Nat) 2 true ⟨9⟩ ⟨1⟩).2.1 =
          (choice ([5, 6, 7] : List Nat) 2 true ⟨9⟩ ⟨2⟩).2.1) :=
  ⟨Or.inl (by decide),
   c3_choice_rng_only [5, 6, 7] 2 true ⟨9⟩ ⟨1⟩ ⟨2⟩ (Or.inl (by decide))⟩

/-! ### Claim C9: which overflow branch re-shuffles -/

/-- **C9 counterexample**: in the *balanced* overflow branch a final
re-sampling pass *is* applied: for a concrete input the result differs from
the plain concatenation of the coverage permutation and the recursive draws,
refuting the claim's assertion that no final re-shuffle happens in the
balanced branch (and, by `c9_overflow_shapes`, the unbalanced branch applies
none). -/
theorem c9_counterexample :
    (choice ([0, 1, 2, 3] : List Nat) 5 true ⟨0⟩ ⟨1⟩).1 ≠
      (sampleNoReplace ([0, 1, 2, 3] : List Nat) 4 ⟨0⟩).1 ++
        (choice ([0, 1, 2, 3] : List Nat) 1 true
          (sampleNoReplace ([0, 1, 2, 3] : List Nat) 4 ⟨0⟩).2 ⟨1⟩).1 := by
  decide

/-- **C9 amended**: in the overflow case `n ≥ |l|` with balanced *unset*,
`choice` returns the concatenation of a full permutation of the candidates
and `n − |l|` draws with replacement, with **no** final re-shuffle — the
full-coverage subsequence is always exactly the first `|l|` elements and the
global state is untouched; the final full-length re-sample without
replacement (an effective re-shuffle, drawn from the global generator) is
applied only in the *balanced* branch. -/
theorem c9_overflow_shapes (l : List α) (n : Nat) (r g : RNG)
    (hl : l ≠ []) (hn : l.length ≤ n) :
    unbalancedCoverageFront l n r g ∧ balancedReshuffled l n r g := by
  constructor
  · unfold unbalancedCoverageFront
    rw [choice_false_overflow r g hn]
    refine ⟨?_, rfl⟩
    rw [List.take_left' (sampleNoReplace_length le_rfl)]
    exact sampleNoReplace_perm
  · unfold balancedReshuffled
    rw [choice_true_overflow r g hl hn]
    have hpool : ((sampleNoReplace l l.length r).1 ++
        (choice l (n - l.length) true
          (sampleNoReplace l l.length r).2 g).1).length = n := by
      rw [List.length_append, sampleNoReplace_length le_rfl,
        choice_true_length hl]
      omega
    have hperm := @sampleNoReplace_perm _
      ((sampleNoReplace l l.length r).1 ++
        (choice l (n - l.length) true (sampleNoReplace l l.length r).2 g).1)
      ((choice l (n - l.length) true (sampleNoReplace l l.length r).2 g).2.2)
    rw [hpool] at hperm
    exact hperm

/-- **C9 amended witness**: concrete instance `l = [4, 5]`, `n = 3`. -/
theorem c9_overflow_shapes_witness :
    (([4, 5] : List Nat) ≠ [] ∧ ([4, 5] : List Nat).length ≤ 3) ∧
      (unbalancedCoverageFront ([4, 5] : List Nat) 3 ⟨7⟩ ⟨3⟩ ∧
        balancedReshuffled ([4, 5] : List Nat) 3 ⟨7⟩ ⟨3⟩) :=
  ⟨⟨by decide, by decide⟩,
   c9_overflow_shapes [4, 5] 3 ⟨7⟩ ⟨3⟩ (by decide) (by decide)⟩

/-! ### Claim C8: sub-block size budget conservation -/

theorem npIntegers_spec {low high : Int} (r : RNG) (h : low < high) :
    ∃ d r', npIntegers low high r = some (d, r') ∧ low ≤ d ∧ d < high := by
  unfold npIntegers
  rw [if_pos h]
  refine ⟨_, _, rfl, ?_, ?_⟩
  · have h0 : (0 : Int) ≤ ((randBelow (high - low).toNat r).1 : Int) :=
      Int.ofNat_nonneg _
    omega
  · have hm : 0 < (high - low).toNat := by omega
    have hlt : (randBelow (high - low).toNat r).1 < (high - low).toNat := by
      simp only [randBelow]
      exact Nat.mod_lt _ hm
    have hcast : (((high - low).toNat : Nat) : Int) = high - low :=
      Int.toNat_of_nonneg (by omega)
    omega

theorem gen_sub_sizes_aux_spec (total : Int) :
    ∀ (k : Nat) (s : Int) (r : RNG), 1 ≤ total - ((k : Int) + 1) - s →
      ∃ sizes r', gen_sub_sizes_aux total k s r = some (sizes, r') ∧
        sizes.length = k + 1 ∧ (∀ x ∈ sizes, 1 ≤ x) ∧
        sizes.sum = total - s := by
  intro k
  induction k with
  | zero =>
    intro s r h
    push_cast at h
    refine ⟨[total - s], r, rfl, rfl, ?_, by simp⟩
    intro x hx
    simp only [List.mem_singleton] at hx
    omega
  | succ k ih =>
    intro s r h
    push_cast at h
    have hadj : (1 : Int) ≤ total - ((k : Int) + 2) * 1 - s := by omega
    have hlow : (1 : Int) < min 4 (total - ((k : Int) + 2) * 1 - s) + 1 := by
      omega
    obtain ⟨d, r2, hnp, hd1, hd2⟩ := npIntegers_spec r hlow
    have hdle : d ≤ total - ((k : Int) + 2) * 1 - s := by
      have := min_le_right (4 : Int) (total - ((k : Int) + 2) * 1 - s)
      omega
    have hrec : 1 ≤ total - ((k : Int) + 1) - (s + d) := by omega
    obtain ⟨rest, r3, hres, hlen, hpos, hsum⟩ := ih (s + d) r2 hrec
    rw [gen_sub_sizes_aux, hnp]
    dsimp only
    rw [hres]
    refine ⟨d :: rest, r3, rfl, by simp [hlen], ?_, ?_⟩
    · intro x hx
      rcases List.mem_cons.mp hx with hx | hx
      · omega
      · exact hpos x hx
    · simp only [List.sum_cons, hsum]
      omega

/-- **C8**: for every generator state, `gen_inhib_sub_block_sizes` succeeds
(the `rng.integers` range at each step is non-empty and the final sum
assertion holds), returning exactly `NB_TRIALS_SWITCH_PER_BLOCK + 1 = 5`
sizes, each at least 1, summing to
`NB_TRIALS_PER_BLOCK − NB_TRIALS_SWITCH_PER_BLOCK = 11`. -/
theorem c8_sub_block_sizes (exp : Exp) (r : RNG) :
    ∃ sizes r', gen_inhib_sub_block_sizes exp r = some (sizes, r') ∧
      sizes.length = NB_TRIALS_SWITCH_PER_BLOCK + 1 ∧
      (∀ x ∈ sizes, 1 ≤ x) ∧
      sizes.sum = (NB_TRIALS_PER_BLOCK : Int) - (NB_TRIALS_SWITCH_PER_BLOCK : Int) := by
  obtain ⟨sizes, r', haux, hlen, hpos, hsum⟩ :=
    gen_sub_sizes_aux_spec
      ((NB_TRIALS_PER_BLOCK : Int) - (NB_TRIALS_SWITCH_PER_BLOCK : Int))
      NB_TRIALS_SWITCH_PER_BLOCK 0 r
      (by norm_num [NB_TRIALS_PER_BLOCK, NB_TRIALS_SWITCH_PER_BLOCK])
  unfold gen_inhib_sub_block_sizes
  dsimp only
  rw [haux]
  dsimp only
  have hperm := @shuffle_perm _ sizes r'
  have hsum' : (shuffle sizes r').1.sum = sizes.sum := hperm.sum_eq
  rw [if_pos (by rw [hsum', hsum]; omega)]
  refine ⟨(shuffle sizes r').1, (shuffle sizes r').2, rfl, ?_, ?_, ?_⟩
  · rw [hperm.length_eq, hlen]
  · intro x hx
    exact hpos x (hperm.mem_iff.mp hx)
  · rw [hsum', hsum]
    omega

/-! ### Claim C6: switching symbols always follow a naming-inhibition symbol -/

theorem insert_switches_head_ne (l : List Nat) (i : Nat) (chosen : List Nat)
    (h : ∀ t ∈ l, t ≠ TRIAL_RI) :
    (insert_switches l i chosen)[0]? ≠ some TRIAL_RI := by
  cases l with
  | nil =>
    rw [insert_switches]
    simp
  | cons t rest =>
    rw [insert_switches]
    have ht := h t (List.mem_cons_self t rest)
    by_cases hmem : i ∈ chosen
    · simp [hmem, ht]
    · simp [hmem, ht]

theorem insert_switches_safe (l : List Nat) :
    ∀ (i : Nat) (chosen : List Nat),
      (∀ t ∈ l, t = TRIAL_NX ∨ t = TRIAL_NI) →
      (∀ k ∈ chosen, i ≤ k → l[k - i]? = some TRIAL_NI) →
      SwitchAfterInhib (insert_switches l i chosen) := by
  induction l with
  | nil =>
    intro i chosen _ _ j hj
    rw [insert_switches] at hj
    simp at hj
  | cons t rest ih =>
    intro i chosen h1 h2
    have hne : ∀ x ∈ t :: rest, x ≠ TRIAL_RI := by
      intro x hx
      rcases h1 x hx with h | h <;> simp [h, TRIAL_NX, TRIAL_NI, TRIAL_RI]
    have hih := ih (i + 1) chosen
      (fun x hx => h1 x (List.mem_cons_of_mem _ hx))
      (fun k hk hik => by
        have hh := h2 k hk (by omega)
        have hidx : k - i = (k - (i + 1)) + 1 := by omega
        rw [hidx] at hh
        simpa using hh)
    have hhead := insert_switches_head_ne rest (i + 1) chosen
      (fun x hx => hne x (List.mem_cons_of_mem _ hx))
    rw [insert_switches]
    by_cases hmem : i ∈ chosen
    · have htNI : t = TRIAL_NI := by
        have hh := h2 i hmem le_rfl
        simp at hh
        exact hh
      simp only [if_pos hmem, List.cons_append, List.nil_append]
      intro j hj
      match j with
      | 0 =>
        rw [List.getElem?_cons_zero] at hj
        rw [htNI] at hj
        simp [TRIAL_NI, TRIAL_RI] at hj
      | 1 =>
        refine ⟨by omega, ?_⟩
        rw [htNI]
        rfl
      | (m + 2) =>
        rw [List.getElem?_cons_succ, List.getElem?_cons_succ] at hj
        rcases Nat.eq_zero_or_pos m with hm | hm
        · subst hm
          exact absurd hj hhead
        · obtain ⟨-, hNI⟩ := hih m hj
          refine ⟨by omega, ?_⟩
          have hidx : m + 2 - 1 = (m - 1) + 1 + 1 := by omega
          rw [hidx, List.getElem?_cons_succ, List.getElem?_cons_succ]
          exact hNI
    · simp only [if_neg hmem, List.cons_append, List.nil_append]
      intro j hj
      match j with
      | 0 =>
        rw [List.getElem?_cons_zero] at hj
        simp only [Option.some.injEq] at hj
        exact absurd hj (hne t (List.mem_cons_self t rest))
      | (m + 1) =>
        rw [List.getElem?_cons_succ] at hj
        rcases Nat.eq_zero_or_pos m with hm | hm
        · subst hm
          exact absurd hj hhead
        · obtain ⟨-, hNI⟩ := hih m hj
          refine ⟨by omega, ?_⟩
          have hidx : m + 1 - 1 = (m - 1) + 1 := by omega
          rw [hidx, List.getElem?_cons_succ]
          exact hNI

/-- **C6**: for every generator state and all counts with
`nb_switching < nb_naming_inhib`, in the sequence returned by
`gen_random_stroop_seq` every switching symbol (`TRIAL_RI`) occurs at a
position `i > 0` whose predecessor is a naming-inhibition symbol
(`TRIAL_NI`) — never a naming-control symbol. -/
theorem c6_switch_after_inhib (nb_naming_control nb_naming_inhib nb_switching : Nat)
    (r : RNG) (h : nb_switching < nb_naming_inhib) :
    SwitchAfterInhib
      (seqOf (gen_random_stroop_seq nb_naming_control nb_naming_inhib
        nb_switching r)) := by
  unfold gen_random_stroop_seq
  rw [if_pos h]
  unfold seqOf
  simp only [Option.map_some', Option.getD_some]
  apply insert_switches_safe
  · intro t ht
    have hmem := shuffle_perm.mem_iff.mp ht
    rcases List.mem_append.mp hmem with hmem | hmem
    · exact Or.inl (List.eq_of_mem_replicate hmem)
    · exact Or.inr (List.eq_of_mem_replicate hmem)
  · intro k hk _
    simp only [Nat.sub_zero]
    obtain ⟨k', _, hkk⟩ := List.mem_filterMap.mp hk
    have hmem := List.getElem?_mem hkk
    have hf := List.mem_filter.mp hmem
    exact of_decide_eq_true hf.2

/-- **C6 witness**: concrete instance with one control, two inhibition and
one switching trial. -/
theorem c6_switch_after_inhib_witness :
    1 < 2 ∧ SwitchAfterInhib (seqOf (gen_random_stroop_seq 1 2 1 ⟨0⟩)) :=
  ⟨by decide, c6_switch_after_inhib 1 2 1 ⟨0⟩ (by decide)⟩

/-! ### Claim C4: expected answers of inhibition and switching trials -/

/-- **C4 counterexample**: the first trial generated by `gen_switch_trials`
renders the word "blue" in red ink (label `Trial_BLUE_red_sw`, ink rgb
`(255, 0, 0)` whose catalog name is "red"), yet its scored stimulus'
expected answer is the *word* "blue" — for framed trials `gen_word_stim`
sets the expected answer to the word, not the ink color name, so the claim
fails as stated. -/
theorem c4_counterexample :
    ((gen_switch_trials expE true).getD 0 (Trial.mk "" none [])).label =
        "Trial_BLUE_red_sw" ∧
      first_scorable_expected
        ((gen_switch_trials expE true).getD 0 (Trial.mk "" none [])) =
        some "blue" ∧
      COLOR_NAMES (255, 0, 0) = some "red" ∧
      ("blue" : String) ≠ "red" := by
  decide

/-- **C4 amended**: trial by trial over the incongruence catalog
`(word, ink_name, ink_rgb)`: *unframed* inhibition trials have their scored
stimulus' expected answer equal to the ink color name, while *framed*
inhibition trials and switching trials have it equal to the word. -/
theorem c4_expected_answers (exp : Exp) (prepend_cue : Bool) :
    (gen_inhib_trials exp none false prepend_cue).map first_scorable_expected =
        (incongruences COLORS).map (fun tr => some tr.2.1) ∧
      (gen_inhib_trials exp none true prepend_cue).map first_scorable_expected =
        (incongruences COLORS).map (fun tr => some tr.1) ∧
      (gen_switch_trials exp prepend_cue).map first_scorable_expected =
        (incongruences COLORS).map (fun tr => some tr.1) := by
  cases exp with
  | mk lang => cases lang <;> cases prepend_cue <;> decide

/-! ### Claim C7: no immediately-repeated expected answer -/

theorem catalog_expected_colors (exp : Exp) :
    ∀ t ∈ gen_naming_trials exp none none false ++
        gen_inhib_trials exp none false false ++ gen_switch_trials exp false,
      ∃ c ∈ colors4names, first_stim_expected t = some c := by
  cases exp with
  | mk lang => cases lang <;> decide

theorem next_trials_mem (exp : Exp) (task stim_type : String)
    (prev : Option String) (cands : List Trial)
    (h : next_trials exp task stim_type prev = some cands) :
    ∀ t ∈ cands,
      (∃ c ∈ colors4names, first_stim_expected t = some c) ∧
        (∀ c, prev = some c → first_stim_expected t ≠ some c) := by
  have hcat := catalog_expected_colors exp
  unfold next_trials at h
  split_ifs at h with h1 h2 h3
  · cases prev with
    | none =>
      simp only [Option.some.injEq] at h
      subst h
      intro t ht
      refine ⟨hcat t (by simp [ht]), ?_⟩
      intro c hc
      cases hc
    | some c =>
      simp only at h
      split_ifs at h with hcl
      simp only [Option.some.injEq] at h
      subst h
      intro t ht
      have hm := List.mem_filter.mp ht
      refine ⟨hcat t (by simp [hm.1]), ?_⟩
      intro c' hc'
      cases hc'
      exact of_decide_eq_true hm.2
  · cases prev with
    | none =>
      simp only [Option.some.injEq] at h
      subst h
      intro t ht
      refine ⟨hcat t (by simp [ht]), ?_⟩
      intro c hc
      cases hc
    | some c =>
      simp only at h
      split_ifs at h with hcl
      simp only [Option.some.injEq] at h
      subst h
      intro t ht
      have hm := List.mem_filter.mp ht
      refine ⟨hcat t (by simp [hm.1]), ?_⟩
      intro c' hc'
      cases hc'
      exact of_decide_eq_true hm.2
  · cases prev with
    | none =>
      simp only [Option.some.injEq] at h
      subst h
      intro t ht
      refine ⟨hcat t (by simp [ht]), ?_⟩
      intro c hc
      cases hc
    | some c =>
      simp only at h
      split_ifs at h with hcl
      simp only [Option.some.injEq] at h
      subst h
      intro t ht
      have hm := List.mem_filter.mp ht
      refine ⟨hcat t (by simp [hm.1]), ?_⟩
      intro c' hc'
      cases hc'
      exact of_decide_eq_true hm.2

theorem stroop_loop_no_repeat (exp : Exp) :
    ∀ (pairs : List (Nat × ℚ)) (prev : Option String) (r g : RNG)
      (out : List Trial × RNG × RNG),
      stroop_loop exp pairs prev r g = some out →
      noRepeatFrom prev (scoredTrials out.1) := by
  intro pairs
  induction pairs with
  | nil =>
    intro prev r g out h
    rw [stroop_loop] at h
    simp only [Option.some.injEq] at h
    subst h
    simp [scoredTrials, noRepeatFrom]
  | cons p rest ih =>
    intro prev r g out h
    rw [stroop_loop] at h
    rcases hts : TRIALS_SPEC[p.1]? with _ | ts
    · rw [hts] at h
      simp at h
    rw [hts] at h
    dsimp only at h
    rcases hnt : next_trials exp ts.1 ts.2 prev with _ | cands
    · rw [hnt] at h
      simp at h
    rw [hnt] at h
    dsimp only at h
    rcases hch : (choice cands 1 false r g).1[0]? with _ | t
    · rw [hch] at h
      simp at h
    rw [hch] at h
    dsimp only at h
    rcases hsl : stroop_loop exp rest (first_stim_expected t)
        (choice cands 1 false r g).2.1 (choice cands 1 false r g).2.2
      with _ | res
    · rw [hsl] at h
      simp at h
    rw [hsl] at h
    simp only [Option.some.injEq] at h
    subst h
    have hfacts := next_trials_mem exp ts.1 ts.2 prev cands hnt t
      (choice_mem 1 r g (List.getElem?_mem hch))
    obtain ⟨⟨c', _, hce⟩, hneq⟩ := hfacts
    have hscored : (first_stim_expected t).isSome = true := by
      rw [hce]
      rfl
    have htail := ih (first_stim_expected t) _ _ res hsl
    simp only [scoredTrials, List.filter_cons, hscored]
    simp only [first_stim_expected, rest_stim, Option.isSome_none,
      Bool.false_eq_true, if_false, if_true]
    exact ⟨hscored, hneq, htail⟩

theorem noRepeatFrom_chain : ∀ (prev : Option String) (l : List Trial),
    noRepeatFrom prev l → NoRepeatChain l := by
  intro prev l
  induction l generalizing prev with
  | nil => intro _; exact List.chain'_nil
  | cons t rest ih =>
    intro h
    obtain ⟨hs, _, hrest⟩ := h
    have hchain := ih (first_stim_expected t) hrest
    cases rest with
    | nil => simp [NoRepeatChain]
    | cons u rest' =>
      obtain ⟨_, hnequ, _⟩ := hrest
      unfold NoRepeatChain at hchain ⊢
      rw [List.chain'_cons]
      refine ⟨?_, hchain⟩
      obtain ⟨c, hc⟩ := Option.isSome_iff_exists.mp hs
      intro heq
      exact hnequ c hc (heq ▸ hc)

/-- **C7**: in the main block of every session produced by
`generate_stroop_session`, any two consecutive scored trials (skipping the
interleaved rest trials) have different expected answers. -/
theorem c7_no_answer_repeat (exp : Exp) (stim_seq : List Nat)
    (isis_ms : List ℚ) (r g : RNG)
    (h : (generate_stroop_session exp stim_seq isis_ms r g).isSome = true) :
    NoRepeatChain (scoredTrials
      (mainBlockTrials (generate_stroop_session exp stim_seq isis_ms r g))) := by
  unfold generate_stroop_session at h ⊢
  rcases hsl : stroop_loop exp (stim_seq.zip isis_ms) none r g with _ | res
  · rw [hsl] at h
    simp at h
  · simp only [mainBlockTrials, List.getD_cons_succ, List.getD_cons_zero]
    have hnr := stroop_loop_no_repeat exp _ none r g res hsl
    exact noRepeatFrom_chain none _ hnr

/-- **C7 witness**: concrete three-symbol sequence (control, inhibition,
switching). -/
theorem c7_no_answer_repeat_witness :
    (generate_stroop_session expE [0, 1, 2] [500, 600, 700] ⟨0⟩ ⟨0⟩).isSome
        = true ∧
      NoRepeatChain (scoredTrials (mainBlockTrials
        (generate_stroop_session expE [0, 1, 2] [500, 600, 700] ⟨0⟩ ⟨0⟩))) :=
  ⟨by decide,
   c7_no_answer_repeat expE [0, 1, 2] [500, 600, 700] ⟨0⟩ ⟨0⟩ (by decide)⟩

/-! ### Claim C2: block and session performance of `run_session` -/

/-- **C2 counterexample**: for the single-block session of four scored trials
whose collected answers are correct, incorrect, correct, correct,
`run_session` does **not** return 0.75: the session-level accumulator adds
the raw correct-answer count divided by the number of blocks
(`performance / len(session.blocks)`, `stroop_color.py:1195`), not the block
accuracy, so the single-block session performance is `3`, not `3/4`. -/
theorem c2_counterexample :
    run_session c2_session c2_env ≠ some (3 / 4 : ℚ) := by
  norm_num +decide [run_session, run_session_stats, run_blocks, run_trials,
    run_stims, c2_session, c2_env, gen_inhib_trials, gen_word_stim,
    incongruences, COLORS, ALL_COLORS, COLOR_NAMES, tr, upper, expE, KEYS,
    STIM_CHAR_ID, first_stim_expected, rest_stim, K_BACKSPACE, gen_cue_stim,
    List.lookup]

/-- **C2 amended**: for that session the *displayed* block performance is
75% — i.e. 0.75 as a fraction, as the claim states for the block level —
while the session-level performance returned by `run_session` is `3`: the
raw correct count (3) divided by the total block count (1), not the mean of
per-block accuracies. -/
theorem c2_accuracy :
    run_session_stats c2_session c2_env = (some 3, [75]) := by
  norm_num +decide [run_session_stats, run_blocks, run_trials, run_stims,
    c2_session, c2_env, gen_inhib_trials, gen_word_stim, incongruences,
    COLORS, ALL_COLORS, COLOR_NAMES, tr, upper, expE, KEYS, STIM_CHAR_ID,
    first_stim_expected, rest_stim, K_BACKSPACE, gen_cue_stim, List.lookup]

/-! ### Claim C10: abort semantics of the repetition controller -/

/-- **C10**: evaluating the code at the failing input.  `run_session` returns
a `None` performance on abort (its abort path is a bare `return`;
`AbortBlockException` is never raised, so `run_sessions`' `except` branch is
dead code).  Consequently: with `repeat_max = 1` and the participant aborting
the only attempt, the aborted repetition **is** recorded (a `None` entry
appears in the performance list) and **does** increment the repetition
counter (the loop stops; with `repeat_max = 2` the same abort is followed by
exactly one more attempt, giving `[None, 1]`), contradicting the claim; the
global session index does advance by one per attempt, as the claim states. -/
theorem c10_abort_behavior :
    run_session c10_session [some K_BACKSPACE] = none ∧
      run_sessions 1 [(c10_session, 0, 1)] "" c10_envs =
        ([("Session_abort", [none])], 2) ∧
      run_sessions 1 [(c10_session, 0, 2)] "" c10_envs =
        ([("Session_abort", [none, some 1])], 3) := by
  refine ⟨?_, ?_, ?_⟩ <;>
    norm_num +decide [run_sessions, run_sessions_go, session_loop,
      dict_append, run_session, run_session_stats, run_blocks, run_trials,
      run_stims, c10_session, c10_envs, gen_word_stim, COLOR_NAMES,
      ALL_COLORS, tr, upper, expE, KEYS, STIM_CHAR_ID, rest_stim,
      K_BACKSPACE, List.lookup]

/-! ### Claim C1: determinism of `gen_main_session` against the global state

The only access of the module's generation code to the numpy global random
state is the `np.random.choice` call in `choice`'s balanced overflow branch;
every `choice` call reachable from `gen_main_session` passes
`balanced=False`.  The lemmas below show that each composer returns its
result and advanced caller generator independently of the global state `g`
(and leaves `g` untouched), so the session tree depends only on the seed
digested from the session label. -/

theorem choice_false_shape (l : List α) (n : Nat) (r : RNG) :
    ∃ a r', ∀ g, choice l n false r g = (a, r', g) := by
  by_cases h : n < l.length
  · exact ⟨(sampleWithReplacement l n r).1, (sampleWithReplacement l n r).2,
      fun g => choice_base_false r g h⟩
  · exact ⟨_, _, fun g => choice_false_overflow r g (Nat.not_lt.mp h)⟩

theorem gen_naming_block_shape (exp : Exp) (sp : Bool) (r : RNG) :
    ∃ b r', ∀ g, gen_naming_block exp sp r g = (b, r', g) := by
  obtain ⟨a, r1, hc⟩ :=
    choice_false_shape (gen_naming_trials exp none none true)
      NB_TRIALS_PER_BLOCK r
  refine ⟨Block.mk "Block_Naming" (BLOCK_CHAR_ID "naming" "control")
    (prepend_block_cue exp a) sp, r1, fun g => ?_⟩
  unfold gen_naming_block
  rw [hc g]

theorem switch_layout_shape (ref : List Trial) :
    ∀ (pairs : List (Int × Trial)) (r : RNG),
      ∃ ts r', ∀ g, switch_layout ref pairs r g = (ts, r', g) := by
  intro pairs
  induction pairs with
  | nil => exact fun r => ⟨[], r, fun g => rfl⟩
  | cons p rest ih =>
    intro r
    obtain ⟨a, r1, hc⟩ := choice_false_shape ref p.1.toNat r
    obtain ⟨ts, r2, hrest⟩ := ih r1
    refine ⟨a ++ p.2 :: ts, r2, fun g => ?_⟩
    rw [switch_layout, hc g]
    dsimp only
    rw [hrest g]

theorem gen_switching_block_shape (exp : Exp) (sp : Bool) (r : RNG) :
    ∃ o : Option (Block × RNG), ∀ g,
      gen_switching_block exp sp r g = o.map fun p => (p.1, p.2, g) := by
  obtain ⟨sw, r1, hsw⟩ :=
    choice_false_shape (gen_switch_trials exp true)
      NB_TRIALS_SWITCH_PER_BLOCK r
  rcases hsz : gen_inhib_sub_block_sizes exp r1 with _ | ⟨sizes, r2⟩
  · refine ⟨none, fun g => ?_⟩
    unfold gen_switching_block
    rw [hsw g]
    dsimp only
    rw [hsz]
    rfl
  · obtain ⟨laid, r3, hlay⟩ :=
      switch_layout_shape (gen_inhib_trials exp none false true)
        (sizes.zip sw) r2
    obtain ⟨last, r4, hlast⟩ :=
      choice_false_shape (gen_inhib_trials exp none false true)
        (sizes.getLastD 0).toNat r3
    refine ⟨some (Block.mk "Block_Switching_Incongruent"
      (some BLOCK_CHAR_ID_switching)
      (Trial.mk "Trial_block_cue" none
        [rest_stim BLOCK_CUE_DURATION exp "#"] :: (laid ++ last)) sp, r4),
      fun g => ?_⟩
    unfold gen_switching_block
    rw [hsw g]
    dsimp only
    rw [hsz]
    dsimp only
    rw [hlay g]
    dsimp only
    rw [hlast g]
    rfl

theorem stroop_loop_shape (exp : Exp) :
    ∀ (pairs : List (Nat × ℚ)) (prev : Option String) (r : RNG),
      ∃ o : Option (List Trial × RNG), ∀ g,
        stroop_loop exp pairs prev r g = o.map fun p => (p.1, p.2, g) := by
  intro pairs
  induction pairs with
  | nil => exact fun prev r => ⟨some ([], r), fun g => rfl⟩
  | cons p rest ih =>
    intro prev r
    rcases hts : TRIALS_SPEC[p.1]? with _ | ts
    · refine ⟨none, fun g => ?_⟩
      rw [stroop_loop, hts]
      rfl
    · rcases hnt : next_trials exp ts.1 ts.2 prev with _ | cands
      · refine ⟨none, fun g => ?_⟩
        rw [stroop_loop, hts]
        dsimp only
        rw [hnt]
        rfl
      · obtain ⟨a, r1, hc⟩ := choice_false_shape cands 1 r
        rcases hget : a[0]? with _ | t
        · refine ⟨none, fun g => ?_⟩
          rw [stroop_loop, hts]
          dsimp only
          rw [hnt]
          dsimp only
          rw [hc g]
          dsimp only
          rw [hget]
          rfl
        · obtain ⟨o2, ho2⟩ := ih (first_stim_expected t) r1
          cases o2 with
          | none =>
            have ho2' : ∀ g, stroop_loop exp rest (first_stim_expected t)
                r1 g = none := fun g => ho2 g
            refine ⟨none, fun g => ?_⟩
            rw [stroop_loop, hts]
            dsimp only
            rw [hnt]
            dsimp only
            rw [hc g]
            dsimp only
            rw [hget]
            dsimp only
            rw [ho2' g]
            rfl
          | some q =>
            have ho2' : ∀ g, stroop_loop exp rest (first_stim_expected t)
                r1 g = some (q.1, q.2, g) := fun g => ho2 g
            refine ⟨some
              (t :: Trial.mk "rest" none [rest_stim p.2 exp "+"] :: q.1, q.2),
              fun g => ?_⟩
            rw [stroop_loop, hts]
            dsimp only
            rw [hnt]
            dsimp only
            rw [hc g]
            dsimp only
            rw [hget]
            dsimp only
            rw [ho2' g]
            rfl

theorem generate_stroop_session_shape (exp : Exp) (stim_seq : List Nat)
    (isis_ms : List ℚ) (r : RNG) :
    ∃ o : Option (Session × RNG), ∀ g,
      generate_stroop_session exp stim_seq isis_ms r g =
        o.map fun p => (p.1, p.2, g) := by
  obtain ⟨o, ho⟩ := stroop_loop_shape exp (stim_seq.zip isis_ms) none r
  cases o with
  | none =>
    have ho' : ∀ g, stroop_loop exp (stim_seq.zip isis_ms) none r g = none :=
      fun g => ho g
    refine ⟨none, fun g => ?_⟩
    unfold generate_stroop_session
    rw [ho' g]
    rfl
  | some q =>
    have ho' : ∀ g, stroop_loop exp (stim_seq.zip isis_ms) none r g =
        some (q.1, q.2, g) := fun g => ho g
    refine ⟨some (Session.mk "Session_Stroop_ER" (some "S")
      [Block.mk "rest" none
        [Trial.mk "rest" none [rest_stim BASELINE_PRE_DURATION exp "+"]] false,
       Block.mk "Block_Stroop_ER" none q.1 false,
       Block.mk "rest" none
        [Trial.mk "rest" none [rest_stim BASELINE_POST_DURATION exp "+"]]
        false], q.2), fun g => ?_⟩
    unfold generate_stroop_session
    rw [ho' g]
    rfl

theorem gen_one_stim_block_shape (exp : Exp) (k : Bool) (r : RNG) :
    ∃ o : Option (Block × RNG), ∀ g,
      gen_one_stim_block exp k r g = o.map fun p => (p.1, p.2, g) := by
  cases k with
  | false =>
    obtain ⟨b, r1, hb⟩ := gen_naming_block_shape exp false r
    refine ⟨some (b, r1), fun g => ?_⟩
    unfold gen_one_stim_block
    rw [hb g]
    rfl
  | true =>
    obtain ⟨o, ho⟩ := gen_switching_block_shape exp false r
    refine ⟨o, fun g => ?_⟩
    unfold gen_one_stim_block
    rw [ho g]
    rfl

theorem gen_stim_blocks_shape (exp : Exp) :
    ∀ (kinds : List Bool) (r : RNG),
      ∃ o : Option (List Block × RNG), ∀ g,
        gen_stim_blocks exp kinds r g = o.map fun p => (p.1, p.2, g) := by
  intro kinds
  induction kinds with
  | nil => exact fun r => ⟨some ([], r), fun g => rfl⟩
  | cons k rest ih =>
    intro r
    obtain ⟨ob, hob⟩ := gen_one_stim_block_shape exp k r
    cases ob with
    | none =>
      have hob' : ∀ g, gen_one_stim_block exp k r g = none := fun g => hob g
      refine ⟨none, fun g => ?_⟩
      rw [gen_stim_blocks, hob' g]
      rfl
    | some b =>
      have hob' : ∀ g, gen_one_stim_block exp k r g =
          some (b.1, b.2, g) := fun g => hob g
      obtain ⟨o, ho⟩ := ih b.2
      cases o with
      | none =>
        have ho' : ∀ g, gen_stim_blocks exp rest b.2 g = none := fun g => ho g
        refine ⟨none, fun g => ?_⟩
        rw [gen_stim_blocks, hob' g]
        dsimp only
        rw [ho' g]
        rfl
      | some q =>
        have ho' : ∀ g, gen_stim_blocks exp rest b.2 g =
            some (q.1, q.2, g) := fun g => ho g
        refine ⟨some (b.1 :: q.1, q.2), fun g => ?_⟩
        rw [gen_stim_blocks, hob' g]
        dsimp only
        rw [ho' g]
        rfl

set_option maxRecDepth 4096 in
theorem assemble_session_shape (exp : Exp) (rds : List ℚ) (r2 : RNG) :
    ∃ o : Option (Session × RNG), ∀ g,
      assemble_session exp rds r2 g = o.map fun p => (p.1, p.2, g) := by
  obtain ⟨o, ho⟩ := gen_stim_blocks_shape exp MAIN_BLOCK_ORDER r2
  have hun : ∀ g : RNG, assemble_session exp rds r2 g =
      (gen_stim_blocks exp MAIN_BLOCK_ORDER r2 g).map fun sb =>
        (Session.mk "Strooper_main" none
          (Block.mk "baseline_pre" none
            [Trial.mk "rest" none
              [rest_stim BASELINE_PRE_DURATION exp "+"]] false ::
            (sb.1.zip (rds.map fun d => Block.mk "rest" none
              [Trial.mk "rest" none [rest_stim d exp "+"]]
              false)).flatMap fun p => [p.1, p.2]),
          sb.2.1, sb.2.2) := fun g => rfl
  cases o with
  | none =>
    have ho' : ∀ g, gen_stim_blocks exp MAIN_BLOCK_ORDER r2 g = none :=
      fun g => ho g
    refine ⟨none, fun g => ?_⟩
    rw [hun g, ho' g]
    rfl
  | some sb =>
    have ho' : ∀ g, gen_stim_blocks exp MAIN_BLOCK_ORDER r2 g =
        some (sb.1, sb.2, g) := fun g => ho g
    refine ⟨some (Session.mk "Strooper_main" none
      (Block.mk "baseline_pre" none
        [Trial.mk "rest" none
          [rest_stim BASELINE_PRE_DURATION exp "+"]] false ::
        (sb.1.zip (rds.map fun d => Block.mk "rest" none
          [Trial.mk "rest" none [rest_stim d exp "+"]]
          false)).flatMap fun p => [p.1, p.2]), sb.2), fun g => ?_⟩
    rw [hun g, ho' g]
    rfl

set_option maxRecDepth 4096 in
theorem gen_main_session_block_shape (exp : Exp) (label : String) (r : RNG) :
    ∃ o : Option (Session × RNG), ∀ g,
      gen_main_session_block exp label r g = o.map fun p => (p.1, p.2, g) := by
  have hunf : ∀ g : RNG, gen_main_session_block exp label r g =
      (gen_rest_durations r).1.bind fun rest_durations =>
        assemble_session exp rest_durations (gen_rest_durations r).2 g :=
    fun g => rfl
  rcases hrd : gen_rest_durations r with ⟨o1, r2⟩
  cases o1 with
  | none =>
    refine ⟨none, fun g => ?_⟩
    rw [hunf g, hrd]
    rfl
  | some rests =>
    obtain ⟨o2, ho2⟩ := assemble_session_shape exp rests r2
    refine ⟨o2, fun g => ?_⟩
    rw [hunf g, hrd]
    dsimp only
    rw [Option.some_bind]
    exact ho2 g

theorem gen_main_session_event_related_shape (exp : Exp) (label : String)
    (r : RNG) :
    ∃ o : Option (Session × RNG), ∀ g,
      gen_main_session_event_related exp label r g =
        o.map fun p => (p.1, p.2, g) := by
  rcases hsq : gen_random_stroop_seq ER_NB_CONTROL ER_NB_INHIB
      ER_NB_SWITCHING r with _ | sq
  · refine ⟨none, fun g => ?_⟩
    unfold gen_main_session_event_related
    rw [hsq]
    rfl
  · obtain ⟨o, ho⟩ := generate_stroop_session_shape exp sq.1
      (draw_isis (ER_NB_SWITCHING + ER_NB_INHIB + ER_NB_CONTROL) sq.2).1
      (draw_isis (ER_NB_SWITCHING + ER_NB_INHIB + ER_NB_CONTROL) sq.2).2
    refine ⟨o, fun g => ?_⟩
    unfold gen_main_session_event_related
    rw [hsq]
    dsimp only
    exact ho g

/-- **C1**: for every configuration, session label and session type, two
calls of `gen_main_session` return the same session tree (hence equal block
counts, labels, marker ids, trial counts, stimulus labels, durations and
expected answers at every level) regardless of the global numpy random
state — in particular regardless of any draws made from the shared global
state between the two calls.  Full equality of the returned trees is proved,
which subsumes the structural identity asserted by the claim. -/
theorem c1_gen_main_session_deterministic (exp : Exp)
    (session_type session_label : String) (rngArg : Option RNG) (g g' : RNG) :
    (gen_main_session exp session_type session_label rngArg g).map Prod.fst =
      (gen_main_session exp session_type session_label rngArg g').map
        Prod.fst := by
  unfold gen_main_session
  dsimp only
  by_cases h : session_type = "block"
  · rw [if_pos h, if_pos h]
    obtain ⟨o, ho⟩ := gen_main_session_block_shape exp session_label
      (default_rng (seedOf session_label))
    rw [ho g, ho g']
    cases o <;> rfl
  · rw [if_neg h, if_neg h]
    obtain ⟨o, ho⟩ := gen_main_session_event_related_shape exp session_label
      (default_rng (seedOf session_label))
    rw [ho g, ho g']
    cases o <;> rfl

end StroopColor
